import Mathlib

/-!
Verification of the energy-bin grouping facility of `gammapy/spectrum/energy_group.py`.

The embedding models:
* `SpectrumEnergyGroup` — one energy group (six data fields);
* the checked constructor `SpectrumEnergyGroup.init` (Python `__init__`, which
  validates `bin_type` and raises `ValueError` otherwise — modelled as `Except`);
* `SpectrumEnergyGroups` operations: `contains_energy`, `find_list_idx`,
  `to_total_table`, `from_total_table`, `to_group_table`, `from_group_table`;
* `SpectrumEnergyGroupMaker.groups_from_obs` and
  `SpectrumEnergyGroupMaker.compute_groups_fixed`.

Physical energies are represented as exact rationals, in units of TeV
(the source manipulates astropy `Quantity` values; all claims use TeV inputs,
and `1 * u.MeV` is `10⁻⁶` TeV).  Tables are lists of row structures, one
structure per astropy table row.  `np.unique` over a column is modelled as
sorting followed by removal of adjacent duplicates.  Python exceptions are
modelled with `Except String`.
-/

namespace Gammapy

/-- One row of the "total table" (one energy bin per row), with the columns
produced by `SpectrumEnergyGroup.bin_table`: `energy_group_idx`, `bin_idx`,
`bin_type`, `energy_min`, `energy_max`. -/
structure TotalTableRow where
  energy_group_idx : Int
  bin_idx : Int
  bin_type : String
  energy_min : ℚ
  energy_max : ℚ
deriving DecidableEq, Repr

/-- `SpectrumEnergyGroup`: a consecutive range of bin indices (both ends
inclusive), with group index, bin type and physical energy range.
The six fields are exactly the `fields` list of the Python class. -/
structure SpectrumEnergyGroup where
  energy_group_idx : Int
  bin_idx_min : Int
  bin_idx_max : Int
  bin_type : String
  energy_min : ℚ
  energy_max : ℚ
deriving DecidableEq, Repr

namespace SpectrumEnergyGroup

/-- `SpectrumEnergyGroup.valid_bin_types`. -/
def valid_bin_types : List String := ["normal", "underflow", "overflow"]

/-- `SpectrumEnergyGroup.__init__`: stores the six fields, but raises
`ValueError('Invalid bin type: ...')` when `bin_type` is not one of
`valid_bin_types`. -/
def init (energy_group_idx bin_idx_min bin_idx_max : Int) (bin_type : String)
    (energy_min energy_max : ℚ) : Except String SpectrumEnergyGroup :=
  if bin_type ∈ valid_bin_types then
    Except.ok
      { energy_group_idx := energy_group_idx
        bin_idx_min := bin_idx_min
        bin_idx_max := bin_idx_max
        bin_type := bin_type
        energy_min := energy_min
        energy_max := energy_max }
  else
    Except.error ("Invalid bin type: " ++ bin_type)

/-- `np.arange lo (..)` over integers, by unary fuel: `arangeAux lo n` is
`[lo, lo+1, ..., lo+n-1]`. -/
def arangeAux (lo : Int) : Nat → List Int
  | 0 => []
  | n + 1 => lo :: arangeAux (lo + 1) n

/-- `SpectrumEnergyGroup.bin_idx_array`: `np.arange (bin_idx_min) (bin_idx_max + 1)`. -/
def bin_idx_array (g : SpectrumEnergyGroup) : List Int :=
  arangeAux g.bin_idx_min (g.bin_idx_max + 1 - g.bin_idx_min).toNat

/-- `SpectrumEnergyGroup.bin_table`: one row per bin index in the group; the
`energy_group_idx`, `bin_type`, `energy_min`, `energy_max` columns are scalars
broadcast to every row. -/
def bin_table (g : SpectrumEnergyGroup) : List TotalTableRow :=
  g.bin_idx_array.map fun b =>
    { energy_group_idx := g.energy_group_idx
      bin_idx := b
      bin_type := g.bin_type
      energy_min := g.energy_min
      energy_max := g.energy_max }

/-- `SpectrumEnergyGroup.contains_energy`:
`(energy_min <= energy) & (energy < energy_max)`. -/
def contains_energy (g : SpectrumEnergyGroup) (energy : ℚ) : Bool :=
  decide (g.energy_min ≤ energy) && decide (energy < g.energy_max)

end SpectrumEnergyGroup

namespace SpectrumEnergyGroups

/-- `SpectrumEnergyGroups.find_list_idx`: scan the list in order and return the
position of the first group containing the energy; `none` models the
`IndexError` raised when no group matches. -/
def find_list_idx (groups : List SpectrumEnergyGroup) (energy : ℚ) : Option Nat :=
  match groups with
  | [] => none
  | g :: gs =>
    if g.contains_energy energy then some 0
    else (find_list_idx gs energy).map (· + 1)

/-- Run an `Except`-producing function over a list, left to right, stopping at
the first error — the behaviour of a Python `for` loop that may `raise`. -/
def exceptMap (f : α → Except String β) : List α → Except String (List β)
  | [] => Except.ok []
  | x :: xs =>
    match f x with
    | Except.error e => Except.error e
    | Except.ok y =>
      match exceptMap f xs with
      | Except.error e => Except.error e
      | Except.ok ys => Except.ok (y :: ys)

/-- Remove adjacent duplicates from a list (the second half of `np.unique`:
after sorting, equal values are adjacent). -/
def dedupAdj : List Int → List Int
  | [] => []
  | [x] => [x]
  | x :: y :: xs => if x = y then dedupAdj (y :: xs) else x :: dedupAdj (y :: xs)

/-- `np.unique` over the `energy_group_idx` column: the sorted list of distinct
values. -/
def uniqueGroupIdx (table : List TotalTableRow) : List Int :=
  dedupAdj ((table.map (·.energy_group_idx)).insertionSort (· ≤ ·))

/-- The rows of `table` whose `energy_group_idx` equals `idx`
(`table[mask]` in the source), in table order. -/
def groupRows (table : List TotalTableRow) (idx : Int) : List TotalTableRow :=
  table.filter (·.energy_group_idx = idx)

/-- The body of the `from_total_table` loop for one `energy_group_idx` value:
first/last row give the bin-index range and energy bounds, a `set` of the
`bin_type` column with more than one element raises
`ValueError('Inconsistent bin_type within group.')`, and the group is built
through the checked constructor. -/
def groupOfRows (idx : Int) (rows : List TotalTableRow) :
    Except String SpectrumEnergyGroup :=
  match rows.head?, rows.getLast? with
  | some first, some last =>
    if 1 < ((rows.map (·.bin_type)).dedup).length then
      Except.error "Inconsistent bin_type within group."
    else
      SpectrumEnergyGroup.init idx first.bin_idx last.bin_idx first.bin_type
        first.energy_min last.energy_max
  | _, _ => Except.error "empty group"

/-- `SpectrumEnergyGroups.from_total_table`: one group per distinct
`energy_group_idx` value of the table, in ascending index order. -/
def from_total_table (table : List TotalTableRow) :
    Except String (List SpectrumEnergyGroup) :=
  exceptMap (fun idx => groupOfRows idx (groupRows table idx)) (uniqueGroupIdx table)

/-- `SpectrumEnergyGroups.to_total_table`: stack the per-group `bin_table`s. -/
def to_total_table (groups : List SpectrumEnergyGroup) : List TotalTableRow :=
  (groups.map SpectrumEnergyGroup.bin_table).flatten

/-- `SpectrumEnergyGroups.to_group_table`: one row per group, carrying the six
declared fields (the row content equals the group, so the row type is reused). -/
def to_group_table (groups : List SpectrumEnergyGroup) : List SpectrumEnergyGroup :=
  groups

/-- `SpectrumEnergyGroups.from_group_table`: rebuild each group from its row
through `SpectrumEnergyGroup.from_dict`, which calls the checked constructor. -/
def from_group_table (table : List SpectrumEnergyGroup) :
    Except String (List SpectrumEnergyGroup) :=
  exceptMap
    (fun r => SpectrumEnergyGroup.init r.energy_group_idx r.bin_idx_min r.bin_idx_max
      r.bin_type r.energy_min r.energy_max)
    table

end SpectrumEnergyGroups

/-- The reconstructed-energy binning of a `SpectrumObservation`
(`obs.e_reco`): lower and upper bin edges, in TeV. -/
structure EnergyBounds where
  lower_bounds : List ℚ
  upper_bounds : List ℚ
deriving DecidableEq, Repr

/-- `ebounds.nbins`. -/
def EnergyBounds.nbins (eb : EnergyBounds) : Nat := eb.lower_bounds.length

namespace SpectrumEnergyGroupMaker

/-- `SpectrumEnergyGroupMaker.groups_from_obs`: build the total table with one
row per energy bin (`bin_idx = energy_group_idx = 0..n-1`, type `normal`,
per-bin energy edges) and reconstruct the group list from it. -/
def groups_from_obs (obs : EnergyBounds) :
    Except String (List SpectrumEnergyGroup) :=
  SpectrumEnergyGroups.from_total_table <|
    (List.range obs.nbins).map fun i =>
      { energy_group_idx := Int.ofNat i
        bin_idx := Int.ofNat i
        bin_type := "normal"
        energy_min := obs.lower_bounds.getD i 0
        energy_max := obs.upper_bounds.getD i 0 }

/-- `np.sign` on a rational. -/
def ratSign (q : ℚ) : Int :=
  if q < 0 then -1 else if q = 0 then 0 else 1

/-- `np.argmin` helper: first index of the minimum among `x :: xs`, scanning
with the running best index and value (strict `<` keeps the first minimum). -/
def argminAux : List Int → Nat → Nat → Int → Nat
  | [], _, best, _ => best
  | x :: xs, i, best, m =>
    if x < m then argminAux xs (i + 1) i x else argminAux xs (i + 1) best m

/-- `np.argmin` (first occurrence); `0` on the empty list, which `np.argmin`
rejects — never reached by the callers below. -/
def argmin : List Int → Nat
  | [] => 0
  | x :: xs => argminAux xs 1 0 x

/-- `1 * u.MeV` expressed in TeV. -/
def oneMeV : ℚ := mkRat 1 1000000

/-- The `lower_indices` array of `compute_groups_fixed`: per requested
boundary, the first fine-bin index where `sign((e - 1 MeV) - lower_bound)` is
minimal; then the last entry is replaced by `nbins` when it is `0`. -/
def lowerIndices (ebounds_obs : EnergyBounds) (ebounds : List ℚ) : List Nat :=
  let li := ebounds.map fun e =>
    argmin (ebounds_obs.lower_bounds.map fun lo => ratSign ((e - oneMeV) - lo))
  if li.getD (li.length - 1) 0 = 0 then
    li.take (li.length - 1) ++ [ebounds_obs.nbins]
  else li

/-- `SpectrumEnergyGroupMaker.compute_groups_fixed`: optional underflow group
before the first located boundary, one normal group per consecutive boundary
pair, optional overflow group after the last located boundary.  List indexing
is by `getD` with default `0`; all indices are in range on the inputs
considered (the source would raise `IndexError` otherwise). -/
def compute_groups_fixed (ebounds_obs : EnergyBounds) (ebounds : List ℚ) :
    List SpectrumEnergyGroup :=
  let li := lowerIndices ebounds_obs ebounds
  let nbins := ebounds_obs.nbins
  let li0 := li.getD 0 0
  let underflow : List SpectrumEnergyGroup :=
    if 0 < li0 then
      [{ energy_group_idx := 0
         bin_idx_min := 0
         bin_idx_max := (li0 : Int) - 1
         bin_type := "underflow"
         energy_min := ebounds_obs.lower_bounds.getD 0 0
         energy_max := ebounds_obs.upper_bounds.getD (li0 - 1) 0 }]
    else []
  let base := underflow.length
  let normals : List SpectrumEnergyGroup :=
    (List.range (ebounds.length - 1)).map fun index =>
      { energy_group_idx := ((base + index : Nat) : Int)
        bin_idx_min := (li.getD index 0 : Int)
        bin_idx_max := (li.getD (index + 1) 0 : Int) - 1
        bin_type := "normal"
        energy_min := ebounds_obs.lower_bounds.getD (li.getD index 0) 0
        energy_max := ebounds_obs.upper_bounds.getD (li.getD (index + 1) 0 - 1) 0 }
  let maxbin := li.getD (li.length - 1) 0
  let overflow : List SpectrumEnergyGroup :=
    if maxbin < nbins then
      [{ energy_group_idx := ((base + (ebounds.length - 1) : Nat) : Int)
         bin_idx_min := (maxbin : Int)
         bin_idx_max := (nbins : Int) - 1
         bin_type := "overflow"
         energy_min := ebounds_obs.lower_bounds.getD maxbin 0
         energy_max := ebounds_obs.upper_bounds.getD (ebounds_obs.upper_bounds.length - 1) 0 }]
    else []
  underflow ++ normals ++ overflow

end SpectrumEnergyGroupMaker

/-- The example observation binning of the test suite: 9 bins of width 1 TeV
covering 1 to 10 TeV. -/
def obs9 : EnergyBounds :=
  { lower_bounds := [1, 2, 3, 4, 5, 6, 7, 8, 9]
    upper_bounds := [2, 3, 4, 5, 6, 7, 8, 9, 10] }

unseal Rat.sub in
/-- C1: `compute_groups_fixed` with boundaries `[1.25, 4.5, 6.5]` TeV over the
9-bin observation covering 1–10 TeV yields, in order: underflow `[0,0]` with
energies `[1,2)`, normal `[1,3]` with `[2,5)`, normal `[4,5]` with `[5,7)`,
overflow `[6,8]` with `[7,10)`, with `energy_group_idx` `0,1,2,3`. -/
theorem compute_groups_fixed_boundaries_125_45_65 :
    SpectrumEnergyGroupMaker.compute_groups_fixed obs9 [mkRat 5 4, mkRat 9 2, mkRat 13 2] =
      [{ energy_group_idx := 0, bin_idx_min := 0, bin_idx_max := 0,
         bin_type := "underflow", energy_min := 1, energy_max := 2 },
       { energy_group_idx := 1, bin_idx_min := 1, bin_idx_max := 3,
         bin_type := "normal", energy_min := 2, energy_max := 5 },
       { energy_group_idx := 2, bin_idx_min := 4, bin_idx_max := 5,
         bin_type := "normal", energy_min := 5, energy_max := 7 },
       { energy_group_idx := 3, bin_idx_min := 6, bin_idx_max := 8,
         bin_type := "overflow", energy_min := 7, energy_max := 10 }] := by
  decide

unseal Rat.sub in
/-- C2: `compute_groups_fixed` with out-of-range boundaries `[-1, 6, 100]` TeV
over the 9-bin observation covering 1–10 TeV clamps to exactly two normal
groups spanning the full range: `[0,4]` with energies `[1,6)` and `[5,8]` with
`[6,10)`, with no underflow and no overflow group. -/
theorem compute_groups_fixed_out_of_range_boundaries :
    SpectrumEnergyGroupMaker.compute_groups_fixed obs9 [-1, 6, 100] =
      [{ energy_group_idx := 0, bin_idx_min := 0, bin_idx_max := 4,
         bin_type := "normal", energy_min := 1, energy_max := 6 },
       { energy_group_idx := 1, bin_idx_min := 5, bin_idx_max := 8,
         bin_type := "normal", energy_min := 6, energy_max := 10 }] := by
  decide

/-- The example group of the test suite:
`SpectrumEnergyGroup(3, 10, 20, 'normal', 100 TeV, 200 TeV)`. -/
def demoGroup : SpectrumEnergyGroup :=
  { energy_group_idx := 3, bin_idx_min := 10, bin_idx_max := 20,
    bin_type := "normal", energy_min := 100, energy_max := 200 }

/-- C4: `contains_energy` holds exactly on the half-open interval
`[energy_min, energy_max)`: it is `true` iff `energy_min ≤ e` and
`e < energy_max`; `energy_min` itself is contained (whenever the interval is
nonempty) and `energy_max` itself never is. -/
theorem contains_energy_half_open (g : SpectrumEnergyGroup) (e : ℚ) :
    (g.contains_energy e = true ↔ g.energy_min ≤ e ∧ e < g.energy_max)
    ∧ (g.energy_min < g.energy_max → g.contains_energy g.energy_min = true)
    ∧ g.contains_energy g.energy_max = false := by
  refine ⟨?_, ?_, ?_⟩
  · simp [SpectrumEnergyGroup.contains_energy]
  · intro h
    simp [SpectrumEnergyGroup.contains_energy, h]
  · simp [SpectrumEnergyGroup.contains_energy]

/-- Witness for C4 on the test-suite group `[100, 200)` TeV: 100 TeV is
contained, 200 TeV is not. -/
theorem contains_energy_half_open_witness :
    demoGroup.contains_energy 100 = true ∧ demoGroup.contains_energy 200 = false :=
  ⟨(contains_energy_half_open demoGroup 100).2.1 (by decide),
   (contains_energy_half_open demoGroup 200).2.2⟩

/-- C6: the `SpectrumEnergyGroup` constructor succeeds and stores the six
fields unchanged for every `bin_type` in `{normal, underflow, overflow}`, and
raises `ValueError` for every `bin_type` outside that set. -/
theorem init_validates_bin_type (idx bmin bmax : Int) (bt : String) (emin emax : ℚ) :
    (bt ∈ SpectrumEnergyGroup.valid_bin_types →
      SpectrumEnergyGroup.init idx bmin bmax bt emin emax =
        Except.ok { energy_group_idx := idx, bin_idx_min := bmin, bin_idx_max := bmax,
                    bin_type := bt, energy_min := emin, energy_max := emax })
    ∧ (bt ∉ SpectrumEnergyGroup.valid_bin_types →
      SpectrumEnergyGroup.init idx bmin bmax bt emin emax =
        Except.error ("Invalid bin type: " ++ bt)) := by
  constructor <;> intro h <;> simp [SpectrumEnergyGroup.init, h]

/-- Witness for C6: the constructor accepts `"normal"` (storing the fields of
the test-suite group) and rejects `"spam"`. -/
theorem init_validates_bin_type_witness :
    SpectrumEnergyGroup.init 3 10 20 "normal" 100 200 = Except.ok demoGroup
    ∧ SpectrumEnergyGroup.init 3 10 20 "spam" 100 200 =
        Except.error "Invalid bin type: spam" :=
  ⟨(init_validates_bin_type 3 10 20 "normal" 100 200).1 (by decide),
   (init_validates_bin_type 3 10 20 "spam" 100 200).2 (by decide)⟩

/-- The example group list of the test suite (four normal groups covering
100–300 TeV). -/
def demoGroups : List SpectrumEnergyGroup :=
  [{ energy_group_idx := 0, bin_idx_min := 10, bin_idx_max := 20,
     bin_type := "normal", energy_min := 100, energy_max := 210 },
   { energy_group_idx := 1, bin_idx_min := 21, bin_idx_max := 25,
     bin_type := "normal", energy_min := 210, energy_max := 260 },
   { energy_group_idx := 5, bin_idx_min := 26, bin_idx_max := 26,
     bin_type := "normal", energy_min := 260, energy_max := 270 },
   { energy_group_idx := 6, bin_idx_min := 27, bin_idx_max := 30,
     bin_type := "normal", energy_min := 270, energy_max := 300 }]

/-- C5: `find_list_idx` returns `none` (the `IndexError`) exactly when no group
of the list contains the energy, and whenever it returns `some i`, position `i`
holds a group containing the energy while every earlier position does not —
i.e. it is the first match in list order. -/
theorem find_list_idx_first_match (groups : List SpectrumEnergyGroup) (energy : ℚ) :
    (SpectrumEnergyGroups.find_list_idx groups energy = none ↔
      ∀ g ∈ groups, g.contains_energy energy = false)
    ∧ ∀ i, SpectrumEnergyGroups.find_list_idx groups energy = some i →
        (∃ g, groups[i]? = some g ∧ g.contains_energy energy = true)
        ∧ ∀ g ∈ groups.take i, g.contains_energy energy = false := by
  induction groups with
  | nil => simp [SpectrumEnergyGroups.find_list_idx]
  | cons g gs ih =>
    by_cases hg : g.contains_energy energy = true
    · refine ⟨by simp [SpectrumEnergyGroups.find_list_idx, hg], ?_⟩
      intro i hi
      simp only [SpectrumEnergyGroups.find_list_idx, hg, if_true] at hi
      obtain rfl : i = 0 := by simpa using hi.symm
      exact ⟨⟨g, by simp, hg⟩, by simp⟩
    · rw [Bool.not_eq_true] at hg
      constructor
      · simp only [SpectrumEnergyGroups.find_list_idx, hg, Bool.false_eq_true, if_false,
          Option.map_eq_none', List.mem_cons]
        rw [ih.1]
        constructor
        · rintro h x (rfl | hx)
          · exact hg
          · exact h x hx
        · intro h x hx
          exact h x (Or.inr hx)
      · intro i hi
        simp only [SpectrumEnergyGroups.find_list_idx, hg, Bool.false_eq_true, if_false,
          Option.map_eq_some'] at hi
        obtain ⟨j, hj, rfl⟩ := hi
        obtain ⟨⟨g', hg', hcont⟩, hbefore⟩ := ih.2 j hj
        refine ⟨⟨g', by simpa using hg', hcont⟩, ?_⟩
        intro x hx
        rw [List.take_succ_cons, List.mem_cons] at hx
        rcases hx with rfl | hx
        · exact hg
        · exact hbefore x hx

/-- Witness for C5 on the test-suite group list: 270 TeV (a shared boundary)
belongs to the fourth group, and 99 TeV (below the overall range) raises. -/
theorem find_list_idx_first_match_witness :
    (∃ g, demoGroups[3]? = some g ∧ g.contains_energy 270 = true)
    ∧ SpectrumEnergyGroups.find_list_idx demoGroups 99 = none :=
  ⟨((find_list_idx_first_match demoGroups 270).2 3 (by decide)).1,
   (find_list_idx_first_match demoGroups 99).1.mpr (by decide)⟩

namespace SpectrumEnergyGroups

theorem exceptMap_map_ok {α β γ} {f : α → Except String β} {m : γ → α} {k : γ → β} :
    ∀ {l : List γ}, (∀ x ∈ l, f (m x) = Except.ok (k x)) →
      exceptMap f (l.map m) = Except.ok (l.map k)
  | [], _ => rfl
  | x :: xs, h => by
    have hx := h x (List.mem_cons_self x xs)
    have ih := exceptMap_map_ok (fun y hy => h y (List.mem_cons_of_mem x hy))
    simp [exceptMap, hx, ih]

theorem exceptMap_ok_proj {α β} {f : α → Except String β} {proj : β → α}
    (hp : ∀ x y, f x = Except.ok y → proj y = x) :
    ∀ {l : List α} {ys : List β}, exceptMap f l = Except.ok ys → ys.map proj = l := by
  intro l
  induction l with
  | nil =>
    intro ys h
    obtain rfl : ([] : List β) = ys := by simpa [exceptMap] using h
    rfl
  | cons x xs ih =>
    intro ys h
    cases hx : f x with
    | error e => simp [exceptMap, hx] at h
    | ok y =>
      cases hxs : exceptMap f xs with
      | error e => simp [exceptMap, hx, hxs] at h
      | ok zs =>
        obtain rfl : y :: zs = ys := by simpa [exceptMap, hx, hxs] using h
        simp [hp x y hx, ih hxs]

theorem exceptMap_error_iff {α β} {f : α → Except String β} {M : String} :
    ∀ {l : List α}, (∀ x ∈ l, f x = Except.error M ∨ ∃ y, f x = Except.ok y) →
      (exceptMap f l = Except.error M ↔ ∃ x ∈ l, f x = Except.error M)
  | [], _ => by simp [exceptMap]
  | x :: xs, h => by
    have ih := exceptMap_error_iff (l := xs) (fun y hy => h y (List.mem_cons_of_mem x hy))
    rcases h x (List.mem_cons_self x xs) with hx | ⟨y, hy⟩
    · constructor
      · intro _
        exact ⟨x, List.mem_cons_self x xs, hx⟩
      · intro _
        simp [exceptMap, hx]
    · cases hxs : exceptMap f xs with
      | error e =>
        simp only [exceptMap, hy, hxs, List.mem_cons]
        constructor
        · intro he
          obtain rfl : e = M := by simpa using he
          obtain ⟨z, hz, hfz⟩ := ih.mp hxs
          exact ⟨z, Or.inr hz, hfz⟩
        · rintro ⟨z, rfl | hz, hfz⟩
          · rw [hy] at hfz; cases hfz
          · have := ih.mpr ⟨z, hz, hfz⟩
            rw [hxs] at this
            exact this
      | ok ys =>
        simp only [exceptMap, hy, hxs, List.mem_cons]
        constructor
        · intro he; cases he
        · rintro ⟨z, rfl | hz, hfz⟩
          · rw [hy] at hfz; cases hfz
          · have := ih.mpr ⟨z, hz, hfz⟩
            rw [hxs] at this
            cases this

theorem mem_of_mem_dedupAdj : ∀ {l : List Int} {a : Int}, a ∈ dedupAdj l → a ∈ l
  | [], _, h => by simp [dedupAdj] at h
  | [x], a, h => by simpa [dedupAdj] using h
  | x :: y :: xs, a, h => by
    by_cases hxy : x = y
    · simp only [dedupAdj, hxy, if_true] at h
      exact List.mem_cons_of_mem x (mem_of_mem_dedupAdj h)
    · simp only [dedupAdj, hxy, if_false, List.mem_cons] at h
      rcases h with rfl | h
      · exact List.mem_cons_self a (y :: xs)
      · exact List.mem_cons_of_mem x (mem_of_mem_dedupAdj h)

theorem mem_dedupAdj_of_mem : ∀ {l : List Int} {a : Int}, a ∈ l → a ∈ dedupAdj l
  | [], _, h => by simp at h
  | [x], a, h => by simpa [dedupAdj] using h
  | x :: y :: xs, a, h => by
    by_cases hxy : x = y
    · simp only [dedupAdj, hxy, if_true]
      rcases List.mem_cons.mp h with rfl | h
      · exact mem_dedupAdj_of_mem (hxy ▸ List.mem_cons_self y xs)
      · exact mem_dedupAdj_of_mem h
    · simp only [dedupAdj, hxy, if_false, List.mem_cons]
      rcases List.mem_cons.mp h with rfl | h
      · exact Or.inl rfl
      · exact Or.inr (mem_dedupAdj_of_mem h)

theorem dedupAdj_sorted_lt : ∀ {l : List Int}, l.Sorted (· ≤ ·) → (dedupAdj l).Sorted (· < ·)
  | [], _ => by simp [dedupAdj]
  | [x], _ => by simp [dedupAdj]
  | x :: y :: xs, h => by
    have htail : (y :: xs).Sorted (· ≤ ·) := h.of_cons
    by_cases hxy : x = y
    · simpa only [dedupAdj, hxy, if_true] using dedupAdj_sorted_lt htail
    · simp only [dedupAdj, hxy, if_false]
      refine List.sorted_cons.mpr ⟨?_, dedupAdj_sorted_lt htail⟩
      intro b hb
      have hby : y ≤ b ∨ y = b := by
        rcases List.mem_cons.mp (mem_of_mem_dedupAdj hb) with rfl | hb'
        · exact Or.inr rfl
        · exact Or.inl (List.rel_of_sorted_cons htail b hb')
      have hxyle : x ≤ y := List.rel_of_sorted_cons h y (List.mem_cons_self y xs)
      have hxylt : x < y := lt_of_le_of_ne hxyle hxy
      rcases hby with hby | rfl
      · exact lt_of_lt_of_le hxylt hby
      · exact hxylt

theorem dedupAdj_eq_self_of_sorted_lt : ∀ {l : List Int}, l.Sorted (· < ·) → dedupAdj l = l
  | [], _ => rfl
  | [x], _ => rfl
  | x :: y :: xs, h => by
    have hxy : x ≠ y := ne_of_lt (List.rel_of_sorted_cons h y (List.mem_cons_self y xs))
    simp only [dedupAdj, hxy, if_false]
    rw [dedupAdj_eq_self_of_sorted_lt h.of_cons]

theorem dedupAdj_replicate_append (a : Int) :
    ∀ (n : Nat), 0 < n → ∀ {l : List Int}, (∀ b, l.head? = some b → a ≠ b) →
      dedupAdj (List.replicate n a ++ l) = a :: dedupAdj l
  | 0, h, _, _ => absurd h (by simp)
  | 1, _, l, hl => by
    cases l with
    | nil => rfl
    | cons b t =>
      have hab : a ≠ b := hl b rfl
      simp [dedupAdj, hab]
  | n + 2, _, l, hl => by
    have ih := dedupAdj_replicate_append a (n + 1) (Nat.succ_pos n) hl
    simp only [List.replicate_succ, List.cons_append] at ih ⊢
    rw [show dedupAdj (a :: a :: (List.replicate n a ++ l)) =
      dedupAdj (a :: (List.replicate n a ++ l)) by simp [dedupAdj]]
    exact ih

end SpectrumEnergyGroups

namespace SpectrumEnergyGroup

/-- Number of bins in a group, i.e. the length of its `bin_idx_array`. -/
def numBins (g : SpectrumEnergyGroup) : Nat :=
  (g.bin_idx_max + 1 - g.bin_idx_min).toNat

theorem arangeAux_length : ∀ (n : Nat) (lo : Int), (arangeAux lo n).length = n
  | 0, _ => rfl
  | n + 1, lo => by simp [arangeAux, arangeAux_length n (lo + 1)]

theorem arangeAux_head? (lo : Int) (n : Nat) : (arangeAux lo (n + 1)).head? = some lo := rfl

theorem arangeAux_getLast? :
    ∀ (n : Nat) (lo : Int), (arangeAux lo (n + 1)).getLast? = some (lo + n)
  | 0, lo => by simp [arangeAux]
  | n + 1, lo => by
    have ih := arangeAux_getLast? n (lo + 1)
    have h3 : arangeAux (lo + 1) (n + 1) = (lo + 1) :: arangeAux (lo + 1 + 1) n := rfl
    have h2 : arangeAux lo (n + 2) = lo :: (lo + 1) :: arangeAux (lo + 1 + 1) n := rfl
    rw [h2, List.getLast?_cons_cons, ← h3, ih]
    congr 1
    omega

theorem arangeAux_map_const {β} (c : β) :
    ∀ (n : Nat) (lo : Int), (arangeAux lo n).map (fun _ => c) = List.replicate n c
  | 0, _ => rfl
  | n + 1, lo => by
    simp [arangeAux, List.replicate_succ, arangeAux_map_const c n (lo + 1)]

theorem dedup_replicate_succ {β} [DecidableEq β] (c : β) :
    ∀ (n : Nat), (List.replicate (n + 1) c).dedup = [c]
  | 0 => by simp
  | n + 1 => by
    rw [List.replicate_succ,
      List.dedup_cons_of_mem (by simp : c ∈ List.replicate (n + 1) c)]
    exact dedup_replicate_succ c n

theorem numBins_pos {g : SpectrumEnergyGroup} (h : g.bin_idx_min ≤ g.bin_idx_max) :
    0 < g.numBins := by
  unfold numBins
  omega

theorem bin_table_map_idx (g : SpectrumEnergyGroup) :
    g.bin_table.map (·.energy_group_idx) =
      List.replicate g.numBins g.energy_group_idx := by
  unfold bin_table bin_idx_array
  rw [List.map_map]
  exact arangeAux_map_const _ _ _

theorem bin_table_map_bin_type (g : SpectrumEnergyGroup) :
    g.bin_table.map (·.bin_type) = List.replicate g.numBins g.bin_type := by
  unfold bin_table bin_idx_array
  rw [List.map_map]
  exact arangeAux_map_const _ _ _

theorem idx_of_mem_bin_table {g : SpectrumEnergyGroup} {r : TotalTableRow}
    (h : r ∈ g.bin_table) : r.energy_group_idx = g.energy_group_idx := by
  simp only [bin_table, List.mem_map] at h
  obtain ⟨b, _, rfl⟩ := h
  rfl

theorem bin_table_head? {g : SpectrumEnergyGroup} (h : g.bin_idx_min ≤ g.bin_idx_max) :
    g.bin_table.head? = some
      { energy_group_idx := g.energy_group_idx, bin_idx := g.bin_idx_min,
        bin_type := g.bin_type, energy_min := g.energy_min, energy_max := g.energy_max } := by
  obtain ⟨m, hm⟩ : ∃ m, g.numBins = m + 1 := ⟨g.numBins - 1, by unfold numBins; omega⟩
  unfold bin_table bin_idx_array
  rw [List.head?_map, show (g.bin_idx_max + 1 - g.bin_idx_min).toNat = m + 1 from hm,
    arangeAux_head?]
  rfl

theorem bin_table_getLast? {g : SpectrumEnergyGroup} (h : g.bin_idx_min ≤ g.bin_idx_max) :
    g.bin_table.getLast? = some
      { energy_group_idx := g.energy_group_idx, bin_idx := g.bin_idx_max,
        bin_type := g.bin_type, energy_min := g.energy_min, energy_max := g.energy_max } := by
  obtain ⟨m, hm⟩ : ∃ m, g.numBins = m + 1 := ⟨g.numBins - 1, by unfold numBins; omega⟩
  have hmax : g.bin_idx_min + (m : Int) = g.bin_idx_max := by
    have := hm
    unfold numBins at this
    omega
  unfold bin_table bin_idx_array
  rw [List.getLast?_map, show (g.bin_idx_max + 1 - g.bin_idx_min).toNat = m + 1 from hm,
    arangeAux_getLast?, hmax]
  rfl

end SpectrumEnergyGroup

namespace SpectrumEnergyGroups

theorem groupOfRows_bin_table (g : SpectrumEnergyGroup)
    (hnb : g.bin_idx_min ≤ g.bin_idx_max)
    (hv : g.bin_type ∈ SpectrumEnergyGroup.valid_bin_types) :
    groupOfRows g.energy_group_idx g.bin_table = Except.ok g := by
  obtain ⟨m, hm⟩ : ∃ m, g.numBins = m + 1 :=
    ⟨g.numBins - 1, by have := SpectrumEnergyGroup.numBins_pos hnb; omega⟩
  have hdedup : (g.bin_table.map (·.bin_type)).dedup = [g.bin_type] := by
    rw [SpectrumEnergyGroup.bin_table_map_bin_type, hm]
    exact SpectrumEnergyGroup.dedup_replicate_succ _ _
  unfold groupOfRows
  rw [SpectrumEnergyGroup.bin_table_head? hnb, SpectrumEnergyGroup.bin_table_getLast? hnb]
  simp only [hdedup, List.length_cons, List.length_nil]
  rw [if_neg (by omega)]
  simp [SpectrumEnergyGroup.init, hv]

theorem mem_to_total_table {gs : List SpectrumEnergyGroup} {r : TotalTableRow}
    (h : r ∈ to_total_table gs) : ∃ g ∈ gs, r ∈ g.bin_table := by
  simp only [to_total_table, List.mem_flatten, List.mem_map] at h
  obtain ⟨b, ⟨g, hg, rfl⟩, hr⟩ := h
  exact ⟨g, hg, hr⟩

theorem to_total_table_cons (g : SpectrumEnergyGroup) (gs : List SpectrumEnergyGroup) :
    to_total_table (g :: gs) = g.bin_table ++ to_total_table gs := by
  simp [to_total_table]

theorem groupRows_to_total_table :
    ∀ (gs : List SpectrumEnergyGroup), (gs.map (·.energy_group_idx)).Nodup →
      ∀ g ∈ gs, groupRows (to_total_table gs) g.energy_group_idx = g.bin_table
  | [], _, g, hg => absurd hg (by simp)
  | g' :: gs, hnodup, g, hg => by
    rw [List.map_cons, List.nodup_cons] at hnodup
    obtain ⟨hhead, htail⟩ := hnodup
    rw [to_total_table_cons]
    unfold groupRows
    rw [List.filter_append]
    rcases List.mem_cons.mp hg with rfl | hg'
    · rw [List.filter_eq_self.mpr ?hall, List.filter_eq_nil_iff.mpr ?hnone, List.append_nil]
      case hall =>
        intro r hr
        simp [SpectrumEnergyGroup.idx_of_mem_bin_table hr]
      case hnone =>
        intro r hr
        obtain ⟨g₂, hg₂, hrg₂⟩ := mem_to_total_table hr
        have : r.energy_group_idx = g₂.energy_group_idx :=
          SpectrumEnergyGroup.idx_of_mem_bin_table hrg₂
        simp only [this, decide_eq_true_eq]
        intro hcontra
        exact hhead (hcontra ▸ List.mem_map_of_mem (·.energy_group_idx) hg₂)
    · have hne : g.energy_group_idx ≠ g'.energy_group_idx := by
        intro hcontra
        exact hhead (hcontra ▸ List.mem_map_of_mem (·.energy_group_idx) hg')
      rw [List.filter_eq_nil_iff.mpr ?hnone2, List.nil_append]
      case hnone2 =>
        intro r hr
        simp only [SpectrumEnergyGroup.idx_of_mem_bin_table hr, decide_eq_true_eq]
        exact fun hcontra => hne hcontra.symm
      exact groupRows_to_total_table gs htail g hg'

theorem map_idx_to_total_table (gs : List SpectrumEnergyGroup) :
    (to_total_table gs).map (·.energy_group_idx) =
      (gs.map fun g => List.replicate g.numBins g.energy_group_idx).flatten := by
  unfold to_total_table
  rw [List.map_flatten, List.map_map]
  congr 1
  exact List.map_congr_left fun g _ => SpectrumEnergyGroup.bin_table_map_idx g

theorem pairwise_le_replicate (n : Nat) (a : Int) :
    (List.replicate n a).Pairwise (· ≤ ·) := by
  induction n with
  | zero => simp
  | succ n ih =>
    rw [List.replicate_succ]
    exact List.Pairwise.cons (fun b hb => le_of_eq (List.eq_of_mem_replicate hb).symm) ih

theorem sorted_le_flatten_replicate (gs : List SpectrumEnergyGroup)
    (hs : (gs.map (·.energy_group_idx)).Pairwise (· < ·)) :
    ((gs.map fun g => List.replicate g.numBins g.energy_group_idx).flatten).Sorted
      (· ≤ ·) := by
  rw [List.Sorted, List.pairwise_flatten]
  constructor
  · intro l hl
    obtain ⟨g, _, rfl⟩ := List.mem_map.mp hl
    exact pairwise_le_replicate _ _
  · rw [List.pairwise_map]
    rw [List.pairwise_map] at hs
    refine hs.imp ?_
    intro g₁ g₂ h x hx y hy
    rw [List.eq_of_mem_replicate hx, List.eq_of_mem_replicate hy]
    exact le_of_lt h

theorem head?_flatten_replicate :
    ∀ (gs : List SpectrumEnergyGroup), (∀ g ∈ gs, 0 < g.numBins) →
      ((gs.map fun g => List.replicate g.numBins g.energy_group_idx).flatten).head? =
        (gs.map (·.energy_group_idx)).head?
  | [], _ => rfl
  | g :: gs, h => by
    obtain ⟨m, hm⟩ : ∃ m, g.numBins = m + 1 :=
      ⟨g.numBins - 1, by have := h g (List.mem_cons_self g gs); omega⟩
    simp only [List.map_cons, List.flatten_cons, hm, List.replicate_succ, List.cons_append,
      List.head?_cons]

theorem dedupAdj_flatten_replicate :
    ∀ (gs : List SpectrumEnergyGroup), (∀ g ∈ gs, 0 < g.numBins) →
      (gs.map (·.energy_group_idx)).Pairwise (· < ·) →
      dedupAdj ((gs.map fun g => List.replicate g.numBins g.energy_group_idx).flatten) =
        gs.map (·.energy_group_idx)
  | [], _, _ => rfl
  | g :: gs, hnb, hs => by
    have hg := hnb g (List.mem_cons_self g gs)
    have htailnb : ∀ g' ∈ gs, 0 < g'.numBins :=
      fun g' hg' => hnb g' (List.mem_cons_of_mem g hg')
    rw [List.map_cons] at hs
    rw [List.map_cons, List.flatten_cons,
      dedupAdj_replicate_append _ _ hg ?hhead, List.map_cons,
      dedupAdj_flatten_replicate gs htailnb hs.of_cons]
    case hhead =>
      intro b hb
      rw [head?_flatten_replicate gs htailnb] at hb
      have hbmem : b ∈ gs.map (·.energy_group_idx) := List.mem_of_mem_head? hb
      exact ne_of_lt (List.rel_of_pairwise_cons hs hbmem)

theorem uniqueGroupIdx_to_total_table (gs : List SpectrumEnergyGroup)
    (hnb : ∀ g ∈ gs, g.bin_idx_min ≤ g.bin_idx_max)
    (hs : (gs.map (·.energy_group_idx)).Pairwise (· < ·)) :
    uniqueGroupIdx (to_total_table gs) = gs.map (·.energy_group_idx) := by
  unfold uniqueGroupIdx
  rw [map_idx_to_total_table,
    List.Sorted.insertionSort_eq (sorted_le_flatten_replicate gs hs)]
  exact dedupAdj_flatten_replicate gs
    (fun g hg => SpectrumEnergyGroup.numBins_pos (hnb g hg)) hs

/-- Shared round-trip core: for a group list with valid bin types, nonempty bin
ranges and strictly increasing `energy_group_idx`, reconstructing from the
total table gives back exactly the input list. -/
theorem from_total_table_to_total_table_eq (gs : List SpectrumEnergyGroup)
    (hv : ∀ g ∈ gs, g.bin_type ∈ SpectrumEnergyGroup.valid_bin_types)
    (hnb : ∀ g ∈ gs, g.bin_idx_min ≤ g.bin_idx_max)
    (hs : (gs.map (·.energy_group_idx)).Pairwise (· < ·)) :
    from_total_table (to_total_table gs) = Except.ok gs := by
  unfold from_total_table
  rw [uniqueGroupIdx_to_total_table gs hnb hs]
  have hnodup : (gs.map (·.energy_group_idx)).Nodup := hs.imp ne_of_lt
  have hok : ∀ g ∈ gs,
      groupOfRows g.energy_group_idx (groupRows (to_total_table gs) g.energy_group_idx) =
        Except.ok g := by
    intro g hg
    rw [groupRows_to_total_table gs hnodup g hg]
    exact groupOfRows_bin_table g (hnb g hg) (hv g hg)
  rw [exceptMap_map_ok (k := fun g => g) hok]
  simp

theorem exceptMap_ok_self {α} {f : α → Except String α} :
    ∀ {l : List α}, (∀ x ∈ l, f x = Except.ok x) → exceptMap f l = Except.ok l
  | [], _ => rfl
  | x :: xs, h => by
    simp [exceptMap, h x (List.mem_cons_self x xs),
      exceptMap_ok_self (fun y hy => h y (List.mem_cons_of_mem x hy))]

theorem flatten_singleton_map {γ δ} (f : γ → δ) :
    ∀ (l : List γ), (l.map fun x => [f x]).flatten = l.map f
  | [] => rfl
  | x :: xs => by simp [flatten_singleton_map f xs]

theorem groupRows_ne_nil {t : List TotalTableRow} {idx : Int}
    (h : idx ∈ uniqueGroupIdx t) : groupRows t idx ≠ [] := by
  have h1 : idx ∈ (t.map (·.energy_group_idx)).insertionSort (· ≤ ·) :=
    mem_of_mem_dedupAdj h
  have h2 : idx ∈ t.map (·.energy_group_idx) := (List.perm_insertionSort _ _).subset h1
  obtain ⟨r, hr, hre⟩ := List.mem_map.mp h2
  exact List.ne_nil_of_mem (List.mem_filter.mpr ⟨hr, by simp [hre]⟩)

theorem groupOfRows_consistency (idx : Int) {rows : List TotalTableRow}
    (hne : rows ≠ [])
    (hv : ∀ r ∈ rows, r.bin_type ∈ SpectrumEnergyGroup.valid_bin_types) :
    (groupOfRows idx rows = Except.error "Inconsistent bin_type within group." ↔
      1 < ((rows.map (·.bin_type)).dedup).length)
    ∧ (¬ 1 < ((rows.map (·.bin_type)).dedup).length →
        ∃ g, groupOfRows idx rows = Except.ok g) := by
  obtain ⟨first, hfirst⟩ : ∃ a, rows.head? = some a := by
    cases rows with
    | nil => exact absurd rfl hne
    | cons r rs => exact ⟨r, rfl⟩
  obtain ⟨last, hlast⟩ : ∃ a, rows.getLast? = some a := by
    cases rows with
    | nil => exact absurd rfl hne
    | cons r rs =>
      exact ⟨(r :: rs).getLast (by simp), List.getLast?_eq_getLast _ (by simp)⟩
  have hfv : first.bin_type ∈ SpectrumEnergyGroup.valid_bin_types :=
    hv first (List.mem_of_mem_head? hfirst)
  have hgr : groupOfRows idx rows =
      (if 1 < ((rows.map (·.bin_type)).dedup).length then
        Except.error "Inconsistent bin_type within group."
      else
        SpectrumEnergyGroup.init idx first.bin_idx last.bin_idx first.bin_type
          first.energy_min last.energy_max) := by
    unfold groupOfRows
    rw [hfirst, hlast]
  rw [hgr]
  by_cases hd : 1 < ((rows.map (·.bin_type)).dedup).length
  · rw [if_pos hd]
    exact ⟨⟨fun _ => hd, fun _ => rfl⟩, fun hcontra => absurd hd hcontra⟩
  · rw [if_neg hd]
    refine ⟨⟨fun he => ?_, fun h1 => absurd h1 hd⟩, fun _ => ?_⟩
    · simp [SpectrumEnergyGroup.init, hfv] at he
    · exact ⟨{ energy_group_idx := idx, bin_idx_min := first.bin_idx,
               bin_idx_max := last.bin_idx, bin_type := first.bin_type,
               energy_min := first.energy_min, energy_max := last.energy_max },
             by simp [SpectrumEnergyGroup.init, hfv]⟩

end SpectrumEnergyGroups

/-- A valid group list that is not sorted by `energy_group_idx`. -/
def swappedGroups : List SpectrumEnergyGroup :=
  [{ energy_group_idx := 1, bin_idx_min := 0, bin_idx_max := 0,
     bin_type := "normal", energy_min := 1, energy_max := 2 },
   { energy_group_idx := 0, bin_idx_min := 1, bin_idx_max := 1,
     bin_type := "normal", energy_min := 2, energy_max := 3 }]

/-- C3 (amended): `from_group_table (to_group_table ·)` is the identity on
every valid group list; `from_total_table (to_total_table ·)` is the identity
on every valid group list whose bin ranges are nonempty and whose
`energy_group_idx` values are strictly increasing — `from_total_table`
rebuilds groups per sorted distinct `energy_group_idx`, so without the
sortedness requirement that route reorders the list (see the
counterexample). -/
theorem table_roundtrip_identity (gs : List SpectrumEnergyGroup)
    (hv : ∀ g ∈ gs, g.bin_type ∈ SpectrumEnergyGroup.valid_bin_types) :
    SpectrumEnergyGroups.from_group_table (SpectrumEnergyGroups.to_group_table gs) =
        Except.ok gs
    ∧ ((∀ g ∈ gs, g.bin_idx_min ≤ g.bin_idx_max) →
        (gs.map (·.energy_group_idx)).Pairwise (· < ·) →
        SpectrumEnergyGroups.from_total_table (SpectrumEnergyGroups.to_total_table gs) =
          Except.ok gs) := by
  constructor
  · unfold SpectrumEnergyGroups.to_group_table SpectrumEnergyGroups.from_group_table
    exact SpectrumEnergyGroups.exceptMap_ok_self fun r hr => by
      simp [SpectrumEnergyGroup.init, hv r hr]
  · intro hnb hs
    exact SpectrumEnergyGroups.from_total_table_to_total_table_eq gs hv hnb hs

/-- Witness for C3: the group-table route is the identity even on the unsorted
`swappedGroups`, and the total-table route is the identity on the sorted
test-suite group list. -/
theorem table_roundtrip_identity_witness :
    SpectrumEnergyGroups.from_group_table
        (SpectrumEnergyGroups.to_group_table swappedGroups) = Except.ok swappedGroups
    ∧ SpectrumEnergyGroups.from_total_table
        (SpectrumEnergyGroups.to_total_table demoGroups) = Except.ok demoGroups :=
  ⟨(table_roundtrip_identity swappedGroups (by decide)).1,
   (table_roundtrip_identity demoGroups (by decide)).2 (by decide) (by decide)⟩

/-- Counterexample to C3 as stated: `swappedGroups` satisfies every declared
data-model invariant (valid bin type, nonempty bin range, `energy_min <
energy_max`), yet `from_total_table (to_total_table ·)` returns its groups in
the opposite order, so the round-trip is not the identity on every valid group
list. -/
theorem table_roundtrip_not_identity :
    (∀ g ∈ swappedGroups,
      g.bin_type ∈ SpectrumEnergyGroup.valid_bin_types ∧
      g.bin_idx_min ≤ g.bin_idx_max ∧ g.energy_min < g.energy_max)
    ∧ SpectrumEnergyGroups.from_total_table
        (SpectrumEnergyGroups.to_total_table swappedGroups) =
        Except.ok
          [{ energy_group_idx := 0, bin_idx_min := 1, bin_idx_max := 1,
             bin_type := "normal", energy_min := 2, energy_max := 3 },
           { energy_group_idx := 1, bin_idx_min := 0, bin_idx_max := 0,
             bin_type := "normal", energy_min := 1, energy_max := 2 }]
    ∧ ([{ energy_group_idx := 0, bin_idx_min := 1, bin_idx_max := 1,
          bin_type := "normal", energy_min := 2, energy_max := 3 },
        { energy_group_idx := 1, bin_idx_min := 0, bin_idx_max := 0,
          bin_type := "normal", energy_min := 1, energy_max := 2 }] :
        List SpectrumEnergyGroup) ≠ swappedGroups := by
  refine ⟨by decide, rfl, by decide⟩

/-- C7: with all bin types drawn from the valid enumeration, reconstructing
from a total table raises the data-consistency `ValueError` exactly when the
rows of some `energy_group_idx` value carry more than one distinct `bin_type`
value. -/
theorem from_total_table_inconsistent_bin_type (t : List TotalTableRow)
    (hv : ∀ r ∈ t, r.bin_type ∈ SpectrumEnergyGroup.valid_bin_types) :
    SpectrumEnergyGroups.from_total_table t =
        Except.error "Inconsistent bin_type within group." ↔
      ∃ idx ∈ SpectrumEnergyGroups.uniqueGroupIdx t,
        1 < (((SpectrumEnergyGroups.groupRows t idx).map (·.bin_type)).dedup).length := by
  have hvrows : ∀ (idx : Int), ∀ r ∈ SpectrumEnergyGroups.groupRows t idx,
      r.bin_type ∈ SpectrumEnergyGroup.valid_bin_types :=
    fun idx r hr => hv r (List.mem_of_mem_filter hr)
  unfold SpectrumEnergyGroups.from_total_table
  rw [SpectrumEnergyGroups.exceptMap_error_iff ?hclass]
  case hclass =>
    intro idx hidx
    have hc := SpectrumEnergyGroups.groupOfRows_consistency idx
      (SpectrumEnergyGroups.groupRows_ne_nil hidx) (hvrows idx)
    by_cases hd :
        1 < (((SpectrumEnergyGroups.groupRows t idx).map (·.bin_type)).dedup).length
    · exact Or.inl (hc.1.mpr hd)
    · exact Or.inr (hc.2 hd)
  constructor
  · rintro ⟨idx, hidx, he⟩
    exact ⟨idx, hidx, (SpectrumEnergyGroups.groupOfRows_consistency idx
      (SpectrumEnergyGroups.groupRows_ne_nil hidx) (hvrows idx)).1.mp he⟩
  · rintro ⟨idx, hidx, hd⟩
    exact ⟨idx, hidx, (SpectrumEnergyGroups.groupOfRows_consistency idx
      (SpectrumEnergyGroups.groupRows_ne_nil hidx) (hvrows idx)).1.mpr hd⟩

/-- A total table whose single group (index 0) mixes two bin types. -/
def inconsistentTable : List TotalTableRow :=
  [{ energy_group_idx := 0, bin_idx := 0, bin_type := "normal",
     energy_min := 1, energy_max := 2 },
   { energy_group_idx := 0, bin_idx := 1, bin_type := "overflow",
     energy_min := 2, energy_max := 3 }]

/-- Witness for C7: a table whose group 0 mixes `normal` and `overflow` makes
`from_total_table` raise the data-consistency failure. -/
theorem from_total_table_inconsistent_bin_type_witness :
    SpectrumEnergyGroups.from_total_table inconsistentTable =
      Except.error "Inconsistent bin_type within group." :=
  (from_total_table_inconsistent_bin_type inconsistentTable (by decide)).mpr
    ⟨0, by decide, by decide⟩

/-- C8: `groups_from_obs` produces exactly one group per energy bin of the
observation: group `i` has bin type `normal`, `energy_group_idx = bin_idx_min =
bin_idx_max = i` for `i = 0..n-1` in order, and the energy bounds of bin `i`. -/
theorem groups_from_obs_one_group_per_bin (obs : EnergyBounds) :
    SpectrumEnergyGroupMaker.groups_from_obs obs =
      Except.ok ((List.range obs.nbins).map fun i =>
        { energy_group_idx := Int.ofNat i
          bin_idx_min := Int.ofNat i
          bin_idx_max := Int.ofNat i
          bin_type := "normal"
          energy_min := obs.lower_bounds.getD i 0
          energy_max := obs.upper_bounds.getD i 0 }) := by
  have hsingle : ∀ i ∈ List.range obs.nbins,
      (SpectrumEnergyGroup.bin_table
        { energy_group_idx := Int.ofNat i
          bin_idx_min := Int.ofNat i
          bin_idx_max := Int.ofNat i
          bin_type := "normal"
          energy_min := obs.lower_bounds.getD i 0
          energy_max := obs.upper_bounds.getD i 0 }) =
      [{ energy_group_idx := Int.ofNat i
         bin_idx := Int.ofNat i
         bin_type := "normal"
         energy_min := obs.lower_bounds.getD i 0
         energy_max := obs.upper_bounds.getD i 0 }] := by
    intro i _
    unfold SpectrumEnergyGroup.bin_table SpectrumEnergyGroup.bin_idx_array
    rw [show ((Int.ofNat i : Int) + 1 - Int.ofNat i).toNat = 1 by omega]
    rfl
  have htable :
      ((List.range obs.nbins).map fun i =>
        ({ energy_group_idx := Int.ofNat i
           bin_idx := Int.ofNat i
           bin_type := "normal"
           energy_min := obs.lower_bounds.getD i 0
           energy_max := obs.upper_bounds.getD i 0 } : TotalTableRow)) =
      SpectrumEnergyGroups.to_total_table ((List.range obs.nbins).map fun i =>
        { energy_group_idx := Int.ofNat i
          bin_idx_min := Int.ofNat i
          bin_idx_max := Int.ofNat i
          bin_type := "normal"
          energy_min := obs.lower_bounds.getD i 0
          energy_max := obs.upper_bounds.getD i 0 }) := by
    unfold SpectrumEnergyGroups.to_total_table
    rw [List.map_map]
    have hcomp : List.map
        (SpectrumEnergyGroup.bin_table ∘ fun i : Nat =>
          ({ energy_group_idx := Int.ofNat i
             bin_idx_min := Int.ofNat i
             bin_idx_max := Int.ofNat i
             bin_type := "normal"
             energy_min := obs.lower_bounds.getD i 0
             energy_max := obs.upper_bounds.getD i 0 } : SpectrumEnergyGroup))
        (List.range obs.nbins) =
        List.map (fun i : Nat =>
          [({ energy_group_idx := Int.ofNat i
              bin_idx := Int.ofNat i
              bin_type := "normal"
              energy_min := obs.lower_bounds.getD i 0
              energy_max := obs.upper_bounds.getD i 0 } : TotalTableRow)])
        (List.range obs.nbins) :=
      List.map_congr_left fun i hi => hsingle i hi
    rw [hcomp, SpectrumEnergyGroups.flatten_singleton_map]
  unfold SpectrumEnergyGroupMaker.groups_from_obs
  rw [htable]
  apply SpectrumEnergyGroups.from_total_table_to_total_table_eq
  · intro g hg
    obtain ⟨i, _, rfl⟩ := List.mem_map.mp hg
    simp [SpectrumEnergyGroup.valid_bin_types]
  · intro g hg
    obtain ⟨i, _, rfl⟩ := List.mem_map.mp hg
    exact le_refl _
  · rw [List.map_map]
    rw [show ((fun g : SpectrumEnergyGroup => g.energy_group_idx) ∘ fun i : Nat =>
      ({ energy_group_idx := Int.ofNat i
         bin_idx_min := Int.ofNat i
         bin_idx_max := Int.ofNat i
         bin_type := "normal"
         energy_min := obs.lower_bounds.getD i 0
         energy_max := obs.upper_bounds.getD i 0 } : SpectrumEnergyGroup)) =
      fun i : Nat => Int.ofNat i from rfl]
    rw [List.pairwise_map]
    exact (List.pairwise_lt_range obs.nbins).imp fun h => Int.ofNat_lt.mpr h

/-- C10: whatever the row order of the input table, the group list produced by
`from_total_table` is sorted by strictly increasing `energy_group_idx`, because
the groups are built following the sorted distinct values of that column. -/
theorem from_total_table_sorted_by_group_idx (t : List TotalTableRow)
    (gs : List SpectrumEnergyGroup)
    (h : SpectrumEnergyGroups.from_total_table t = Except.ok gs) :
    (gs.map (·.energy_group_idx)).Sorted (· < ·) := by
  unfold SpectrumEnergyGroups.from_total_table at h
  have hproj : ∀ (idx : Int) (g : SpectrumEnergyGroup),
      SpectrumEnergyGroups.groupOfRows idx (SpectrumEnergyGroups.groupRows t idx) =
        Except.ok g → g.energy_group_idx = idx := by
    intro idx g hg
    unfold SpectrumEnergyGroups.groupOfRows at hg
    split at hg
    · rename_i first last heq
      split at hg
      · cases hg
      · unfold SpectrumEnergyGroup.init at hg
        split at hg
        · injection hg with h2
          rw [← h2]
        · cases hg
    · cases hg
  have hmap := SpectrumEnergyGroups.exceptMap_ok_proj hproj h
  rw [hmap]
  exact SpectrumEnergyGroups.dedupAdj_sorted_lt (List.sorted_insertionSort _ _)

/-- A total table whose rows are not ordered by `energy_group_idx`. -/
def unsortedTable : List TotalTableRow :=
  [{ energy_group_idx := 1, bin_idx := 0, bin_type := "normal",
     energy_min := 1, energy_max := 2 },
   { energy_group_idx := 0, bin_idx := 1, bin_type := "normal",
     energy_min := 2, energy_max := 3 }]

/-- Witness for C10: reconstructing from a table whose rows carry group
indices `[1, 0]` yields a group list sorted by ascending index. -/
theorem from_total_table_sorted_by_group_idx_witness :
    (([{ energy_group_idx := 0, bin_idx_min := 1, bin_idx_max := 1,
         bin_type := "normal", energy_min := 2, energy_max := 3 },
       { energy_group_idx := 1, bin_idx_min := 0, bin_idx_max := 0,
         bin_type := "normal", energy_min := 1, energy_max := 2 }] :
       List SpectrumEnergyGroup).map (·.energy_group_idx)).Sorted (· < ·) :=
  from_total_table_sorted_by_group_idx unsortedTable _ rfl

end Gammapy
